import Mathlib

/-!
# Shallow embedding of `AuthDatabase` (src/src/auth-database.ts)

The program is a SQLite-backed token store with two tables:

* `tokens(name TEXT PRIMARY KEY, expiration INTEGER NOT NULL, token TEXT NOT NULL UNIQUE)`
* `rights(name TEXT, right TEXT, PRIMARY KEY (name, right),
           FOREIGN KEY (name) REFERENCES tokens(name) ON DELETE CASCADE)`
  with `PRAGMA foreign_keys = ON`.

We model the database state as two lists of rows (insertion order), and each
SQL statement of the source as a Lean function with SQLite's semantics:
an `INSERT` either fails on a constraint violation (primary key, unique
index, foreign key) leaving the state unchanged, or appends the row; a
`SELECT ... .get` returns the first matching row; `DELETE` removes the
matching token rows and, via the `ON DELETE CASCADE` foreign key, the
rights rows referencing them.

Nondeterministic inputs of the source are threaded as parameters:
`crypto.getRandomValues(new Uint8Array(32))` becomes an explicit list of 32
bytes, and `Math.floor(Date.now() / 1000)` becomes an explicit `now : Int`.
Each SQLite statement auto-commits (the source opens no transaction), so a
thrown constraint violation in the middle of `generateToken` leaves the
statements already run committed; the model therefore returns the partial
state together with the error.
-/

/-- A row of the `tokens` table: `name TEXT PRIMARY KEY, expiration INTEGER,
token TEXT UNIQUE`. -/
structure TokensRow where
  name : String
  expiration : Int
  token : String
deriving DecidableEq, Repr

/-- A row of the `rights` table: `name TEXT, right TEXT`,
`PRIMARY KEY (name, right)`, foreign key `name → tokens(name)`. -/
structure RightsRow where
  name : String
  right : String
deriving DecidableEq, Repr

/-- The database state: the contents of the two tables, in insertion order. -/
structure DB where
  tokens : List TokensRow
  rights : List RightsRow
deriving DecidableEq, Repr

/-- The state of a freshly created database (after `#init`). -/
def emptyDB : DB := ⟨[], []⟩

/-- The value returned by `generateToken`
(TS interface `AuthDatabaseToken`). -/
structure AuthDatabaseToken where
  name : String
  expiration : Int
  token : String
  rights : List String
deriving DecidableEq, Repr

/-- The "safe" view `AuthDatabaseSafeToken = Omit<AuthDatabaseToken, 'token'>`
returned by `getToken`, `getOptionalToken` and `listTokens`. -/
structure AuthDatabaseSafeToken where
  name : String
  expiration : Int
  rights : List String
deriving DecidableEq, Repr

/-- The two recoverable failure kinds surfaced by the store: the explicit
`Token "name" already exists.` throw, and a SQLite constraint violation
raised by a prepared `INSERT`. -/
inductive DBError where
  | duplicateName
  | constraintViolation
deriving DecidableEq, Repr

/-! ## The prepared statements -/

/-- `SELECT name FROM tokens WHERE name = ?` followed by `.get`:
the first row whose `name` matches, if any. -/
def selectTokenFromName (db : DB) (name : String) : Option TokensRow :=
  db.tokens.find? (fun r => r.name = name)

/-- `INSERT INTO tokens (name, expiration, token) VALUES (?, ?, ?)`.
Fails (constraint violation) when the `name` primary key or the `token`
unique index would be violated; otherwise appends the row. -/
def insertToken (db : DB) (name : String) (expiration : Int) (token : String) :
    Except DBError DB :=
  if db.tokens.any (fun r => r.name = name) then
    .error .constraintViolation
  else if db.tokens.any (fun r => r.token = token) then
    .error .constraintViolation
  else
    .ok { db with tokens := db.tokens ++ [⟨name, expiration, token⟩] }

/-- `INSERT INTO rights (name, right) VALUES (?, ?)`.
Fails when the `(name, right)` primary key would be violated, or (with
`PRAGMA foreign_keys = ON`) when `name` references no token row;
otherwise appends the row. -/
def insertRight (db : DB) (name : String) (right : String) :
    Except DBError DB :=
  if db.rights.any (fun rr => rr.name = name ∧ rr.right = right) then
    .error .constraintViolation
  else if db.tokens.any (fun r => r.name = name) then
    .ok { db with rights := db.rights ++ [⟨name, right⟩] }
  else
    .error .constraintViolation

/-- `DELETE FROM tokens WHERE name = ?`: removes the token rows with that
name; the `ON DELETE CASCADE` foreign key removes the rights rows
referencing them. `run(...).changes` counts the directly deleted token
rows, so `changes > 0` iff some token row had that name. -/
def deleteTokenRows (db : DB) (name : String) : DB × Bool :=
  (⟨db.tokens.filter (fun r => ¬ r.name = name),
    db.rights.filter (fun rr => ¬ rr.name = name)⟩,
   db.tokens.any (fun r => r.name = name))

/-- `SELECT right FROM rights WHERE name = ?` followed by `.all`. -/
def selectRightsFromName (db : DB) (name : String) : List RightsRow :=
  db.rights.filter (fun rr => rr.name = name)

/-- `SELECT name FROM tokens WHERE token = ? AND (expiration > ? OR
expiration = 0)` followed by `.get !== undefined`. -/
def selectNotExpiredToken (db : DB) (token : String) (now : Int) : Bool :=
  db.tokens.any (fun r => r.token = token ∧ (r.expiration > now ∨ r.expiration = 0))

/-- The scalar subquery `SELECT name FROM tokens WHERE token = ?`:
the name of the first matching row, or `NULL`. -/
def selectNameFromToken (db : DB) (token : String) : Option String :=
  (db.tokens.find? (fun r => r.token = token)).map (fun r => r.name)

/-- `SELECT name FROM rights WHERE name = (SELECT name FROM tokens WHERE
token = ?) AND right = ?` followed by `.get !== undefined`. `name = NULL`
matches no row, so a missing token yields `false`. -/
def selectTokenFromTokenAndRight (db : DB) (token : String) (right : String) :
    Bool :=
  match selectNameFromToken db token with
  | none => false
  | some n => db.rights.any (fun rr => rr.name = n ∧ rr.right = right)

/-! ## Secret generation

`uint8ArrayToHex` comes from the external `@xstd/hex` package (not part of
this repository's sources).

Modelled from the spec: a cryptographically-random 256-bit value (32 bytes)
rendered as lowercase hexadecimal, two hex digits per byte, prefixed with
`"auth-"`. -/

/-- The sixteen lowercase hexadecimal digit characters, i.e. the digit
characters of the values below 16. -/
def hexDigitChars : List Char := (List.range 16).map Nat.digitChar

/-- The lowercase hexadecimal digit character for a nibble. -/
def hexDigit (n : Nat) : Char := Nat.digitChar (n % 16)

/-- Modelled from the spec: `uint8ArrayToHex` of `@xstd/hex` — two
lowercase hex digits per byte, high nibble first. -/
def uint8ArrayToHexChars : List Nat → List Char
  | [] => []
  | b :: bs => hexDigit (b / 16 % 16) :: hexDigit (b % 16) :: uint8ArrayToHexChars bs

/-- Modelled from the spec: the hexadecimal rendering as a string. -/
def uint8ArrayToHex (bytes : List Nat) : String := ⟨uint8ArrayToHexChars bytes⟩

/-- `` `auth-${uint8ArrayToHex(crypto.getRandomValues(new Uint8Array(32)))}` ``
with the random bytes passed explicitly. -/
def mkSecret (bytes : List Nat) : String := "auth-" ++ uint8ArrayToHex bytes

/-! ## The public methods -/

/-- `hasToken(name)`: `this.#selectTokenFromNameStatement.get(name) !== undefined`. -/
def hasToken (db : DB) (name : String) : Bool :=
  (selectTokenFromName db name).isSome

/-- The `for (const right of rights)` loop of `generateToken`: runs
`#insertRightStatement` for each right in order; a constraint violation
throws out of the loop, keeping the rows already committed. Returns the
resulting state and whether the loop completed. -/
def insertRightsLoop (db : DB) (name : String) : List String → DB × Bool
  | [] => (db, true)
  | r :: rs =>
    match insertRight db name r with
    | .error _ => (db, false)
    | .ok db' => insertRightsLoop db' name rs

/-- `generateToken({name, expiration = 0, rights})`, with the 32 random
bytes passed explicitly. Throws `duplicateName` when `hasToken(name)`;
otherwise inserts the token row, then each rights row; each statement
auto-commits, so the state at the moment an insert throws is returned
alongside the error. On success returns `{name, expiration, token, rights}`. -/
def generateToken (db : DB) (name : String) (expiration : Int)
    (rights : List String) (bytes : List Nat) :
    DB × Except DBError AuthDatabaseToken :=
  if hasToken db name then
    (db, .error .duplicateName)
  else
    let token := mkSecret bytes
    match insertToken db name expiration token with
    | .error e => (db, .error e)
    | .ok db1 =>
      match insertRightsLoop db1 name rights with
      | (db2, true) => (db2, .ok ⟨name, expiration, token, rights⟩)
      | (db2, false) => (db2, .error .constraintViolation)

/-- `#getTokenRights({name, expiration})`: gathers the rights rows for
`name` and builds the safe view. -/
def getTokenRights (db : DB) (name : String) (expiration : Int) :
    AuthDatabaseSafeToken :=
  ⟨name, expiration, (selectRightsFromName db name).map (fun rr => rr.right)⟩

/-- `getOptionalToken(name)`: `SELECT name, expiration FROM tokens WHERE
name = ?`, then `#getTokenRights`; `undefined` when no row matches. -/
def getOptionalToken (db : DB) (name : String) : Option AuthDatabaseSafeToken :=
  match db.tokens.find? (fun r => r.name = name) with
  | none => none
  | some row => some (getTokenRights db row.name row.expiration)

/-- `getToken(name)`: like `getOptionalToken` but throws
`Token "name" does not exist.` when absent. -/
def getToken (db : DB) (name : String) : Except Unit AuthDatabaseSafeToken :=
  match getOptionalToken db name with
  | none => .error ()
  | some t => .ok t

/-- `deleteToken(name)`: `this.#deleteTokenFromNameStatement.run(name).changes > 0`. -/
def deleteToken (db : DB) (name : String) : DB × Bool :=
  deleteTokenRows db name

/-- `listTokens()`: every token row mapped through `#getTokenRights`. -/
def listTokens (db : DB) : List AuthDatabaseSafeToken :=
  db.tokens.map (fun row => getTokenRights db row.name row.expiration)

/-- `verifyTokenValidity(token)` with `Math.floor(Date.now() / 1000)`
passed explicitly as `now`. -/
def verifyTokenValidity (db : DB) (now : Int) (token : String) : Bool :=
  selectNotExpiredToken db token now

/-- `verifyTokenRight(token, right)`. -/
def verifyTokenRight (db : DB) (token : String) (right : String) : Bool :=
  selectTokenFromTokenAndRight db token right

/-! ## Reachable states and structural invariants -/

/-- States reachable from a fresh database through the store's mutating
operations (`generateToken`, including its failing runs, and
`deleteToken`). -/
inductive Reachable : DB → Prop
  | init : Reachable emptyDB
  | generate (db : DB) (name : String) (expiration : Int)
      (rights : List String) (bytes : List Nat) :
      Reachable db → Reachable (generateToken db name expiration rights bytes).1
  | delete (db : DB) (name : String) :
      Reachable db → Reachable (deleteToken db name).1

/-- The structural invariants enforced by the schema: `name` primary key,
`token` unique index, and the `rights.name → tokens.name` foreign key. -/
structure SchemaInv (db : DB) : Prop where
  nameUnique : ∀ r ∈ db.tokens, ∀ r' ∈ db.tokens, r.name = r'.name → r = r'
  tokenUnique : ∀ r ∈ db.tokens, ∀ r' ∈ db.tokens, r.token = r'.token → r = r'
  fk : ∀ rr ∈ db.rights, ∃ tr ∈ db.tokens, tr.name = rr.name

/-! ## Basic query lemmas -/

/-- `hasToken` decides existence of a token row with the given name. -/
lemma hasToken_iff_exists (db : DB) (name : String) :
    hasToken db name = true ↔ ∃ r ∈ db.tokens, r.name = name := by
  simp [hasToken, selectTokenFromName]

/-- A failed `hasToken` check means no token row carries the name. -/
lemma hasToken_eq_false_iff (db : DB) (name : String) :
    hasToken db name = false ↔ ∀ r ∈ db.tokens, r.name ≠ name := by
  rw [← Bool.not_eq_true, hasToken_iff_exists]
  push_neg
  rfl

/-! ## C2 -/

/-- C2: `verifyTokenValidity(secret)` returns true iff a record exists whose
secret equals the given value and whose expiration is `0` or strictly
greater than the current Unix time; an expired (non-zero, past) match and a
missing secret both yield false. -/
theorem verifyTokenValidity_iff_valid_record (db : DB) (now : Int) (secret : String) :
    verifyTokenValidity db now secret = true ↔
      ∃ r ∈ db.tokens, r.token = secret ∧
        (r.expiration = 0 ∨ r.expiration > now) := by
  simp only [verifyTokenValidity, selectNotExpiredToken, List.any_eq_true,
    decide_eq_true_eq]
  constructor
  · rintro ⟨r, hr, h1, h2⟩
    exact ⟨r, hr, h1, h2.symm⟩
  · rintro ⟨r, hr, h1, h2⟩
    exact ⟨r, hr, h1, h2.symm⟩

/-! ## C4 -/

/-- C4: `generateToken` on an existing name fails with the duplicate-name
error before any mutation: the state is returned unchanged, so
`listTokens` is unchanged in length and contents. -/
theorem generateToken_duplicate_name_unchanged (db : DB) (name : String)
    (expiration : Int) (rights : List String) (bytes : List Nat)
    (h : hasToken db name = true) :
    generateToken db name expiration rights bytes = (db, .error .duplicateName) ∧
    listTokens (generateToken db name expiration rights bytes).1 = listTokens db := by
  constructor
  · simp [generateToken, h]
  · simp [generateToken, h]

/-- Witness for C4: a store holding `test`; regenerating `test` fails with
`duplicateName` and leaves the listing unchanged. -/
theorem generateToken_duplicate_name_unchanged_witness :
    generateToken ⟨[⟨"test", 0, "auth-a"⟩], [⟨"test", "read"⟩]⟩ "test" 0 ["read"]
        (List.replicate 32 0) =
      (⟨[⟨"test", 0, "auth-a"⟩], [⟨"test", "read"⟩]⟩, .error .duplicateName) ∧
    listTokens (generateToken ⟨[⟨"test", 0, "auth-a"⟩], [⟨"test", "read"⟩]⟩ "test" 0
        ["read"] (List.replicate 32 0)).1 =
      listTokens ⟨[⟨"test", 0, "auth-a"⟩], [⟨"test", "read"⟩]⟩ :=
  generateToken_duplicate_name_unchanged _ "test" 0 ["read"] (List.replicate 32 0)
    (by decide)

/-! ## C7 -/

/-- C7: `deleteToken(name)` returns true iff a token row with that name was
actually present, removes that row and (by cascade) every rights row with
that name while keeping all other token rows, and never errors: repeating
the call returns false and changes nothing (idempotence). -/
theorem deleteToken_boolean_spec (db : DB) (name : String) :
    ((deleteToken db name).2 = true ↔ ∃ r ∈ db.tokens, r.name = name) ∧
    hasToken (deleteToken db name).1 name = false ∧
    (∀ rr ∈ (deleteToken db name).1.rights, rr.name ≠ name) ∧
    (∀ r ∈ db.tokens, r.name ≠ name → r ∈ (deleteToken db name).1.tokens) ∧
    deleteToken (deleteToken db name).1 name = ((deleteToken db name).1, false) := by
  refine ⟨?_, ?_, ?_, ?_, ?_⟩
  · simp [deleteToken, deleteTokenRows]
  · rw [hasToken_eq_false_iff]
    intro r hr
    simp only [deleteToken, deleteTokenRows, List.mem_filter,
      decide_eq_true_eq] at hr
    exact hr.2
  · intro rr hrr
    simp only [deleteToken, deleteTokenRows, List.mem_filter,
      decide_eq_true_eq] at hrr
    exact hrr.2
  · intro r hr hname
    simp only [deleteToken, deleteTokenRows, List.mem_filter,
      decide_eq_true_eq]
    exact ⟨hr, hname⟩
  · simp only [deleteToken, deleteTokenRows, List.filter_filter, Prod.mk.injEq,
      DB.mk.injEq]
    refine ⟨⟨?_, ?_⟩, ?_⟩
    · exact List.filter_congr (fun r _ => by simp)
    · exact List.filter_congr (fun rr _ => by simp)
    · simp only [List.any_eq_false, List.mem_filter, decide_eq_true_eq]
      rintro r ⟨-, hr⟩
      simpa using hr

/-! ## C1 -/

/-- C1: the source wraps no transaction around the inserts of
`generateToken` (each prepared statement auto-commits). Calling
`generateToken` on an empty store with the duplicate rights list
`["read", "read"]` makes the second rights insert violate the
`(name, right)` primary key: the call fails, yet the token row and the
first rights row remain committed — observable partial state, contradicting
the claimed all-or-nothing behaviour. -/
theorem generateToken_duplicate_right_partial_state :
    (generateToken emptyDB "t" 0 ["read", "read"] (List.replicate 32 0)).2 =
      .error .constraintViolation ∧
    (generateToken emptyDB "t" 0 ["read", "read"] (List.replicate 32 0)).1.tokens =
      [⟨"t", 0, mkSecret (List.replicate 32 0)⟩] ∧
    (generateToken emptyDB "t" 0 ["read", "read"] (List.replicate 32 0)).1.rights =
      [⟨"t", "read"⟩] :=
  ⟨rfl, rfl, rfl⟩

/-! ## C3 -/

/-- C3: under the schema's unique index on `token`, `verifyTokenRight
(secret, right)` returns true iff a record exists whose secret equals the
given value and whose rights set contains `right`; false for a right not
granted and for an unknown secret. The characterisation mentions no clock
and no expiration, so the result is independent of both — an expired
record holding the right still yields true. -/
theorem verifyTokenRight_iff_right_record (db : DB) (secret right : String)
    (huniq : ∀ r ∈ db.tokens, ∀ r' ∈ db.tokens, r.token = r'.token → r = r') :
    verifyTokenRight db secret right = true ↔
      ∃ r ∈ db.tokens, r.token = secret ∧
        ∃ rr ∈ db.rights, rr.name = r.name ∧ rr.right = right := by
  unfold verifyTokenRight selectTokenFromTokenAndRight selectNameFromToken
  cases hfind : db.tokens.find? (fun r => r.token = secret) with
  | none =>
    rw [List.find?_eq_none] at hfind
    simp only [Option.map_none', Bool.false_eq_true, false_iff]
    rintro ⟨r, hr, hrt, -⟩
    exact hfind r hr (by simp [hrt])
  | some r0 =>
    have hr0m : r0 ∈ db.tokens := List.mem_of_find?_eq_some hfind
    have hr0t : r0.token = secret := by
      have := List.find?_some hfind
      simpa using this
    simp only [Option.map_some', List.any_eq_true, decide_eq_true_eq]
    constructor
    · rintro ⟨rr, hrr, h1, h2⟩
      exact ⟨r0, hr0m, hr0t, rr, hrr, h1, h2⟩
    · rintro ⟨r, hrm, hrt, rr, hrr, h1, h2⟩
      have : r = r0 := huniq r hrm r0 hr0m (by rw [hrt, hr0t])
      exact ⟨rr, hrr, by rw [h1, this], h2⟩

/-- Witness for C3: a store with one expired token named `test` holding
`read`; the characterisation holds for it at right `read`. -/
theorem verifyTokenRight_iff_right_record_witness :
    verifyTokenRight ⟨[⟨"test", 5, "auth-a"⟩], [⟨"test", "read"⟩]⟩ "auth-a" "read" =
        true ↔
      ∃ r ∈ ([⟨"test", 5, "auth-a"⟩] : List TokensRow), r.token = "auth-a" ∧
        ∃ rr ∈ ([⟨"test", "read"⟩] : List RightsRow), rr.name = r.name ∧
          rr.right = "read" :=
  verifyTokenRight_iff_right_record ⟨[⟨"test", 5, "auth-a"⟩], [⟨"test", "read"⟩]⟩
    "auth-a" "read" (by decide)

/-! ## C8 -/

/-- C8: `hasToken(name)` is true iff a record with exactly that name exists
(a pure query of the state, with no expiration condition); an expired
record — here one whose non-zero expiration is at or before `now`, stated
for a state where it is the unique holder of its secret — still answers
`hasToken` with true, still has a `getOptionalToken` result and a
`listTokens` entry, yet fails `verifyTokenValidity`: no sweep removes
expired rows. -/
theorem hasToken_pure_existence_and_expired_rows_remain (db : DB) (r : TokensRow)
    (now : Int) (hmem : r ∈ db.tokens)
    (huniq : ∀ r' ∈ db.tokens, r'.token = r.token → r' = r)
    (hexp : r.expiration ≠ 0) (hpast : r.expiration ≤ now) :
    (∀ d (n : String), hasToken d n = true ↔ ∃ t ∈ d.tokens, t.name = n) ∧
    hasToken db r.name = true ∧
    (getOptionalToken db r.name).isSome = true ∧
    (∃ st ∈ listTokens db, st.name = r.name) ∧
    verifyTokenValidity db now r.token = false := by
  refine ⟨fun d n => hasToken_iff_exists d n, ?_, ?_, ?_, ?_⟩
  · exact (hasToken_iff_exists db r.name).2 ⟨r, hmem, rfl⟩
  · have : (db.tokens.find? (fun t => t.name = r.name)).isSome := by
      rw [List.find?_isSome]
      exact ⟨r, hmem, by simp⟩
    cases hfind : db.tokens.find? (fun t => t.name = r.name) with
    | none => rw [hfind] at this; simp at this
    | some row => simp [getOptionalToken, hfind]
  · exact ⟨getTokenRights db r.name r.expiration,
      List.mem_map.2 ⟨r, hmem, rfl⟩, rfl⟩
  · simp only [verifyTokenValidity, selectNotExpiredToken, List.any_eq_false,
      decide_eq_true_eq]
    rintro t htm ⟨htt, hval⟩
    have ht : t = r := huniq t htm htt
    subst ht
    rcases hval with h | h
    · exact absurd hpast (by omega)
    · exact hexp h

/-- Witness for C8: a store with one token `test` expired at time 5,
queried at time 10. -/
theorem hasToken_pure_existence_and_expired_rows_remain_witness :
    (∀ d (n : String), hasToken d n = true ↔ ∃ t ∈ d.tokens, t.name = n) ∧
    hasToken ⟨[⟨"test", 5, "auth-a"⟩], [⟨"test", "read"⟩]⟩
      (TokensRow.mk "test" 5 "auth-a").name = true ∧
    (getOptionalToken ⟨[⟨"test", 5, "auth-a"⟩], [⟨"test", "read"⟩]⟩
      (TokensRow.mk "test" 5 "auth-a").name).isSome = true ∧
    (∃ st ∈ listTokens ⟨[⟨"test", 5, "auth-a"⟩], [⟨"test", "read"⟩]⟩,
      st.name = (TokensRow.mk "test" 5 "auth-a").name) ∧
    verifyTokenValidity ⟨[⟨"test", 5, "auth-a"⟩], [⟨"test", "read"⟩]⟩ 10
      (TokensRow.mk "test" 5 "auth-a").token = false :=
  hasToken_pure_existence_and_expired_rows_remain
    ⟨[⟨"test", 5, "auth-a"⟩], [⟨"test", "read"⟩]⟩ ⟨"test", 5, "auth-a"⟩ 10
    (by decide) (by decide) (by decide) (by decide)

/-! ## Successful `generateToken` runs -/

/-- The rights loop succeeds and appends exactly one row per right when the
rights are pairwise distinct, none is already present for the name, and
the token row for the name exists (foreign key). -/
lemma insertRightsLoop_success (name : String) :
    ∀ (rights : List String) (db : DB), rights.Nodup →
      (∀ r ∈ rights, ∀ rr ∈ db.rights, ¬(rr.name = name ∧ rr.right = r)) →
      db.tokens.any (fun t => t.name = name) = true →
      insertRightsLoop db name rights =
        ({ db with rights := db.rights ++ rights.map (fun r => ⟨name, r⟩) }, true)
  | [], db => by
    intro _ _ _
    simp [insertRightsLoop]
  | r :: rs, db => by
    intro hnodup hfree hfk
    have hdup : db.rights.any (fun rr => rr.name = name ∧ rr.right = r) = false := by
      rw [List.any_eq_false]
      intro rr hrr
      simpa using hfree r (by simp) rr hrr
    have hstep : insertRight db name r =
        .ok { db with rights := db.rights ++ [⟨name, r⟩] } := by
      rw [insertRight, hdup, hfk]
      simp
    have hrec := insertRightsLoop_success name rs
      { db with rights := db.rights ++ [⟨name, r⟩] }
      (List.Nodup.of_cons hnodup)
      (by
        intro r' hr' rr hrr
        rcases List.mem_append.1 hrr with h | h
        · exact hfree r' (List.mem_cons_of_mem _ hr') rr h
        · rcases List.mem_singleton.1 h with rfl
          rintro ⟨-, h2⟩
          have h2' : r = r' := h2
          have : r ∉ rs := (List.nodup_cons.1 hnodup).1
          exact this (h2' ▸ hr'))
      hfk
    rw [insertRightsLoop, hstep]
    refine Eq.trans hrec ?_
    simp [List.append_assoc]

/-- A successful `generateToken` run: when the name is free, the generated
secret collides with no stored one, the rights are pairwise distinct and no
stale rights row carries the name, the call appends exactly the token row
and one rights row per right, and returns the full record including the
secret. -/
lemma generateToken_success_eq (db : DB) (name : String) (expiration : Int)
    (rights : List String) (bytes : List Nat)
    (hname : hasToken db name = false)
    (hfresh : ∀ r ∈ db.tokens, r.token ≠ mkSecret bytes)
    (hnodup : rights.Nodup)
    (hnorights : ∀ rr ∈ db.rights, rr.name ≠ name) :
    generateToken db name expiration rights bytes =
      (⟨db.tokens ++ [⟨name, expiration, mkSecret bytes⟩],
        db.rights ++ rights.map (fun r => ⟨name, r⟩)⟩,
       .ok ⟨name, expiration, mkSecret bytes, rights⟩) := by
  have hnameAny : db.tokens.any (fun r => r.name = name) = false := by
    rw [List.any_eq_false]
    intro r hr
    simpa using (hasToken_eq_false_iff db name).1 hname r hr
  have htokAny : db.tokens.any (fun r => r.token = mkSecret bytes) = false := by
    rw [List.any_eq_false]
    intro r hr
    simpa using hfresh r hr
  have hins : insertToken db name expiration (mkSecret bytes) =
      .ok { db with tokens := db.tokens ++ [⟨name, expiration, mkSecret bytes⟩] } := by
    rw [insertToken, hnameAny, htokAny]
    simp
  have hloop := insertRightsLoop_success name rights
    { db with tokens := db.tokens ++ [⟨name, expiration, mkSecret bytes⟩] }
    hnodup
    (by
      intro r _ rr hrr
      rintro ⟨h1, -⟩
      exact hnorights rr hrr h1)
    (by
      rw [List.any_eq_true]
      exact ⟨⟨name, expiration, mkSecret bytes⟩, by simp, by simp⟩)
  rw [generateToken, hname]
  simp only [Bool.false_eq_true, if_false]
  rw [hins]
  simp only [hloop]

/-- After a successful `generateToken`, looking the name up returns the safe
view with exactly the supplied expiration and rights, and no secret field. -/
lemma getOptionalToken_after_success (db : DB) (name : String) (expiration : Int)
    (rights : List String) (bytes : List Nat)
    (hname : hasToken db name = false)
    (hfresh : ∀ r ∈ db.tokens, r.token ≠ mkSecret bytes)
    (hnodup : rights.Nodup)
    (hnorights : ∀ rr ∈ db.rights, rr.name ≠ name) :
    getOptionalToken (generateToken db name expiration rights bytes).1 name =
      some ⟨name, expiration, rights⟩ := by
  rw [generateToken_success_eq db name expiration rights bytes hname hfresh hnodup
    hnorights]
  have hfindOld : db.tokens.find? (fun r => r.name = name) = none := by
    rw [List.find?_eq_none]
    intro r hr
    simpa using (hasToken_eq_false_iff db name).1 hname r hr
  have hfind : (db.tokens ++ [(⟨name, expiration, mkSecret bytes⟩ : TokensRow)]).find?
      (fun r => r.name = name) = some ⟨name, expiration, mkSecret bytes⟩ := by
    rw [List.find?_append, hfindOld]
    simp
  simp only [getOptionalToken, hfind, getTokenRights, selectRightsFromName]
  have hold : db.rights.filter
      (fun rr => rr.name = (TokensRow.mk name expiration (mkSecret bytes)).name) = [] := by
    rw [List.filter_eq_nil_iff]
    intro rr hrr
    simpa using hnorights rr hrr
  rw [List.filter_append, hold]
  simp [List.filter_map, Function.comp_def]

/-! ## The safe views never expose the secret -/

/-- Replace every stored secret by the empty string, leaving names,
expirations and rights untouched. -/
def eraseSecrets (db : DB) : DB :=
  { db with tokens := db.tokens.map (fun r => { r with token := "" }) }

/-- `getOptionalToken` does not depend on the stored secrets. -/
lemma getOptionalToken_eraseSecrets (db : DB) (name : String) :
    getOptionalToken (eraseSecrets db) name = getOptionalToken db name := by
  unfold getOptionalToken eraseSecrets
  rw [List.find?_map]
  have hpred : ((fun r : TokensRow => decide (r.name = name)) ∘
      (fun r : TokensRow => { r with token := "" })) =
      (fun r : TokensRow => decide (r.name = name)) := rfl
  rw [hpred]
  cases hfind : db.tokens.find? (fun r => r.name = name) with
  | none => simp
  | some row => simp [getTokenRights, selectRightsFromName]

/-- `getToken` does not depend on the stored secrets. -/
lemma getToken_eraseSecrets (db : DB) (name : String) :
    getToken (eraseSecrets db) name = getToken db name := by
  unfold getToken
  rw [getOptionalToken_eraseSecrets]

/-- `listTokens` does not depend on the stored secrets. -/
lemma listTokens_eraseSecrets (db : DB) :
    listTokens (eraseSecrets db) = listTokens db := by
  unfold listTokens eraseSecrets
  rw [List.map_map]
  rfl

/-! ## C5 -/

/-- C5: creating a fresh token and reading it back returns
`{name, expiration, rights}` with exactly the supplied rights (here even in
the supplied order, hence set-equal), while the generated secret appears
only in the creation result: the safe views `getToken`, `getOptionalToken`
and `listTokens` are invariant under erasing every stored secret, so none
of them exposes it. -/
theorem generateToken_roundtrip_and_secret_hidden (db : DB) (name : String)
    (expiration : Int) (rights : List String) (bytes : List Nat)
    (hname : hasToken db name = false)
    (hfresh : ∀ r ∈ db.tokens, r.token ≠ mkSecret bytes)
    (hnodup : rights.Nodup)
    (hnorights : ∀ rr ∈ db.rights, rr.name ≠ name) :
    (generateToken db name expiration rights bytes).2 =
      .ok ⟨name, expiration, mkSecret bytes, rights⟩ ∧
    getToken (generateToken db name expiration rights bytes).1 name =
      .ok ⟨name, expiration, rights⟩ ∧
    (∀ d (n : String), getToken (eraseSecrets d) n = getToken d n ∧
      getOptionalToken (eraseSecrets d) n = getOptionalToken d n) ∧
    (∀ d, listTokens (eraseSecrets d) = listTokens d) := by
  refine ⟨?_, ?_,
    fun d n => ⟨getToken_eraseSecrets d n, getOptionalToken_eraseSecrets d n⟩,
    listTokens_eraseSecrets⟩
  · rw [generateToken_success_eq db name expiration rights bytes hname hfresh
      hnodup hnorights]
  · unfold getToken
    rw [getOptionalToken_after_success db name expiration rights bytes hname hfresh
      hnodup hnorights]

/-- Witness for C5: creating `test` with rights `["read"]` in an empty
store. -/
theorem generateToken_roundtrip_and_secret_hidden_witness :
    (generateToken emptyDB "test" 0 ["read"] (List.replicate 32 0)).2 =
      .ok ⟨"test", 0, mkSecret (List.replicate 32 0), ["read"]⟩ ∧
    getToken (generateToken emptyDB "test" 0 ["read"] (List.replicate 32 0)).1
        "test" = .ok ⟨"test", 0, ["read"]⟩ ∧
    (∀ d (n : String), getToken (eraseSecrets d) n = getToken d n ∧
      getOptionalToken (eraseSecrets d) n = getOptionalToken d n) ∧
    (∀ d, listTokens (eraseSecrets d) = listTokens d) :=
  generateToken_roundtrip_and_secret_hidden emptyDB "test" 0 ["read"]
    (List.replicate 32 0) (by decide) (by decide) (by decide) (by decide)

/-! ## C10 -/

/-- C10: `generateToken` validates none of its stated preconditions: with an
empty name and a negative expiration the record is created and stored as
given; afterwards `verifyTokenValidity` at any non-negative clock value
answers false for its secret (the expiration is neither `0` nor in the
future), while `hasToken` and `getToken` still return the record. -/
theorem generateToken_no_precondition_validation (db : DB)
    (rights : List String) (bytes : List Nat) (expiration now : Int)
    (hname : hasToken db "" = false)
    (hfresh : ∀ r ∈ db.tokens, r.token ≠ mkSecret bytes)
    (hnodup : rights.Nodup)
    (hnorights : ∀ rr ∈ db.rights, rr.name ≠ "")
    (hneg : expiration < 0) (hnow : 0 ≤ now) :
    (generateToken db "" expiration rights bytes).2 =
      .ok ⟨"", expiration, mkSecret bytes, rights⟩ ∧
    hasToken (generateToken db "" expiration rights bytes).1 "" = true ∧
    getToken (generateToken db "" expiration rights bytes).1 "" =
      .ok ⟨"", expiration, rights⟩ ∧
    verifyTokenValidity (generateToken db "" expiration rights bytes).1 now
      (mkSecret bytes) = false := by
  have hsucc := generateToken_success_eq db "" expiration rights bytes hname hfresh
    hnodup hnorights
  refine ⟨?_, ?_, ?_, ?_⟩
  · rw [hsucc]
  · rw [hsucc]
    exact (hasToken_iff_exists _ "").2 ⟨⟨"", expiration, mkSecret bytes⟩, by simp, rfl⟩
  · unfold getToken
    rw [getOptionalToken_after_success db "" expiration rights bytes hname hfresh
      hnodup hnorights]
  · rw [hsucc]
    simp only [verifyTokenValidity, selectNotExpiredToken, List.any_eq_false,
      decide_eq_true_eq]
    intro r hr
    rcases List.mem_append.1 hr with h | h
    · rintro ⟨ht, -⟩
      exact hfresh r h ht
    · rcases List.mem_singleton.1 h with rfl
      rintro ⟨-, hval⟩
      rcases hval with h' | h'
      · have hgt : expiration > now := h'
        omega
      · have heq : expiration = 0 := h'
        omega

/-- Witness for C10: empty name, expiration `-5`, checked at time `0`. -/
theorem generateToken_no_precondition_validation_witness :
    (generateToken emptyDB "" (-5) ["read"] (List.replicate 32 0)).2 =
      .ok ⟨"", -5, mkSecret (List.replicate 32 0), ["read"]⟩ ∧
    hasToken (generateToken emptyDB "" (-5) ["read"] (List.replicate 32 0)).1 "" =
      true ∧
    getToken (generateToken emptyDB "" (-5) ["read"] (List.replicate 32 0)).1 "" =
      .ok ⟨"", -5, ["read"]⟩ ∧
    verifyTokenValidity (generateToken emptyDB "" (-5) ["read"]
      (List.replicate 32 0)).1 0 (mkSecret (List.replicate 32 0)) = false :=
  generateToken_no_precondition_validation emptyDB ["read"] (List.replicate 32 0)
    (-5) 0 (by decide) (by decide) (by decide) (by decide) (by decide) (by decide)

/-! ## Preservation of the schema invariants -/

/-- A successful token insert preserves the schema invariants. -/
lemma schemaInv_insertToken {db db' : DB} {name : String} {expiration : Int}
    {tok : String} (h : insertToken db name expiration tok = .ok db')
    (hinv : SchemaInv db) : SchemaInv db' := by
  unfold insertToken at h
  split at h
  · exact absurd h (by simp)
  · split at h
    · exact absurd h (by simp)
    · rename_i h1 h2
      have hname : ∀ r ∈ db.tokens, ¬ r.name = name := by
        have := List.any_eq_false.1 (Bool.of_not_eq_true h1)
        intro r hr
        simpa using this r hr
      have htok : ∀ r ∈ db.tokens, ¬ r.token = tok := by
        have := List.any_eq_false.1 (Bool.of_not_eq_true h2)
        intro r hr
        simpa using this r hr
      obtain rfl := Except.ok.inj h
      refine ⟨?_, ?_, ?_⟩
      · intro r hr r' hr'
        rcases List.mem_append.1 hr with hm | hm <;>
          rcases List.mem_append.1 hr' with hm' | hm'
        · exact hinv.nameUnique r hm r' hm'
        · rcases List.mem_singleton.1 hm' with rfl
          intro heq
          exact absurd heq (hname r hm)
        · rcases List.mem_singleton.1 hm with rfl
          intro heq
          exact absurd heq.symm (hname r' hm')
        · rcases List.mem_singleton.1 hm with rfl
          rcases List.mem_singleton.1 hm' with rfl
          intro _
          rfl
      · intro r hr r' hr'
        rcases List.mem_append.1 hr with hm | hm <;>
          rcases List.mem_append.1 hr' with hm' | hm'
        · exact hinv.tokenUnique r hm r' hm'
        · rcases List.mem_singleton.1 hm' with rfl
          intro heq
          exact absurd heq (htok r hm)
        · rcases List.mem_singleton.1 hm with rfl
          intro heq
          exact absurd heq.symm (htok r' hm')
        · rcases List.mem_singleton.1 hm with rfl
          rcases List.mem_singleton.1 hm' with rfl
          intro _
          rfl
      · intro rr hrr
        obtain ⟨tr, htr, hn⟩ := hinv.fk rr hrr
        exact ⟨tr, List.mem_append_left _ htr, hn⟩

/-- A successful rights insert preserves the schema invariants. -/
lemma schemaInv_insertRight {db db' : DB} {name r : String}
    (h : insertRight db name r = .ok db') (hinv : SchemaInv db) :
    SchemaInv db' := by
  unfold insertRight at h
  split at h
  · exact absurd h (by simp)
  · split at h
    · rename_i hdup hfk
      obtain rfl := Except.ok.inj h
      refine ⟨hinv.nameUnique, hinv.tokenUnique, ?_⟩
      intro rr hrr
      rcases List.mem_append.1 hrr with hm | hm
      · exact hinv.fk rr hm
      · rcases List.mem_singleton.1 hm with rfl
        obtain ⟨tr, htr, hn⟩ := List.any_eq_true.1 hfk
        exact ⟨tr, htr, by simpa using hn⟩
    · exact absurd h (by simp)

/-- The rights loop preserves the schema invariants, whether or not it
completes. -/
lemma schemaInv_insertRightsLoop (name : String) :
    ∀ (rights : List String) (db : DB), SchemaInv db →
      SchemaInv (insertRightsLoop db name rights).1
  | [], _ => fun h => h
  | r :: rs, db => fun h => by
    cases hstep : insertRight db name r with
    | error e =>
      rw [insertRightsLoop, hstep]
      exact h
    | ok db1 =>
      rw [insertRightsLoop, hstep]
      exact schemaInv_insertRightsLoop name rs db1 (schemaInv_insertRight hstep h)

/-- `generateToken` preserves the schema invariants, also on its failing
runs. -/
lemma schemaInv_generateToken (db : DB) (name : String) (expiration : Int)
    (rights : List String) (bytes : List Nat) (h : SchemaInv db) :
    SchemaInv (generateToken db name expiration rights bytes).1 := by
  cases hname : hasToken db name with
  | true =>
    rw [generateToken, hname]
    simpa using h
  | false =>
    rw [generateToken, hname]
    simp only [Bool.false_eq_true, if_false]
    cases hins : insertToken db name expiration (mkSecret bytes) with
    | error e => exact h
    | ok db1 =>
      have h2 := schemaInv_insertRightsLoop name rights db1
        (schemaInv_insertToken hins h)
      have hred : SchemaInv (match insertRightsLoop db1 name rights with
          | (db2, true) => (db2, Except.ok
              (⟨name, expiration, mkSecret bytes, rights⟩ : AuthDatabaseToken))
          | (db2, false) => (db2, Except.error DBError.constraintViolation)).1 := by
        rcases hloop : insertRightsLoop db1 name rights with ⟨db2, b⟩
        rw [hloop] at h2
        cases b <;> exact h2
      exact hred

/-- `deleteToken` preserves the schema invariants. -/
lemma schemaInv_deleteToken (db : DB) (name : String) (h : SchemaInv db) :
    SchemaInv (deleteToken db name).1 := by
  unfold deleteToken deleteTokenRows
  refine ⟨?_, ?_, ?_⟩
  · intro r hr r' hr'
    exact h.nameUnique r (List.mem_filter.1 hr).1 r' (List.mem_filter.1 hr').1
  · intro r hr r' hr'
    exact h.tokenUnique r (List.mem_filter.1 hr).1 r' (List.mem_filter.1 hr').1
  · intro rr hrr
    have hm := List.mem_filter.1 hrr
    obtain ⟨tr, htr, hn⟩ := h.fk rr hm.1
    refine ⟨tr, List.mem_filter.2 ⟨htr, ?_⟩, hn⟩
    have hne : ¬ rr.name = name := by simpa using hm.2
    simpa [hn] using hne

/-- Every reachable state satisfies the schema invariants. -/
lemma reachable_schemaInv {db : DB} (h : Reachable db) : SchemaInv db := by
  induction h with
  | init =>
    exact ⟨fun r hr => absurd hr (List.not_mem_nil r),
      fun r hr => absurd hr (List.not_mem_nil r),
      fun rr hrr => absurd hrr (List.not_mem_nil rr)⟩
  | generate db name expiration rights bytes _ ih =>
    exact schemaInv_generateToken db name expiration rights bytes ih
  | delete db name _ ih =>
    exact schemaInv_deleteToken db name ih

/-! ## C6 -/

/-- C6: in every reachable state, each rights entry references an existing
token name (the foreign key holds), and `deleteToken(name)` cascades: no
rights row with that name survives the deletion. -/
theorem rights_foreign_key_and_cascade (db : DB) (h : Reachable db) :
    (∀ rr ∈ db.rights, ∃ tr ∈ db.tokens, tr.name = rr.name) ∧
    (∀ (name : String), ∀ rr ∈ (deleteToken db name).1.rights, rr.name ≠ name) := by
  refine ⟨(reachable_schemaInv h).fk, ?_⟩
  intro name rr hrr
  simp only [deleteToken, deleteTokenRows, List.mem_filter,
    decide_eq_true_eq] at hrr
  exact hrr.2

/-- Witness for C6: the state reached by creating token `a` with right `r`
in a fresh store. -/
theorem rights_foreign_key_and_cascade_witness :
    (∀ rr ∈ (generateToken emptyDB "a" 0 ["r"] (List.replicate 32 0)).1.rights,
      ∃ tr ∈ (generateToken emptyDB "a" 0 ["r"] (List.replicate 32 0)).1.tokens,
        tr.name = rr.name) ∧
    (∀ (name : String), ∀ rr ∈ (deleteToken
        (generateToken emptyDB "a" 0 ["r"] (List.replicate 32 0)).1 name).1.rights,
      rr.name ≠ name) :=
  rights_foreign_key_and_cascade _
    (Reachable.generate emptyDB "a" 0 ["r"] (List.replicate 32 0) Reachable.init)

/-! ## C9 -/

/-- Every nibble renders to one of the sixteen hexadecimal digits. -/
lemma hexDigit_mem (n : Nat) : hexDigit n ∈ hexDigitChars :=
  List.mem_map.2 ⟨n % 16, List.mem_range.2 (Nat.mod_lt n (by omega)), rfl⟩

/-- The hexadecimal rendering emits two characters per byte. -/
lemma uint8ArrayToHexChars_length :
    ∀ bs : List Nat, (uint8ArrayToHexChars bs).length = 2 * bs.length
  | [] => rfl
  | b :: bs => by
    rw [uint8ArrayToHexChars]
    simp only [List.length_cons, uint8ArrayToHexChars_length bs]
    omega

/-- Every character of the hexadecimal rendering is a hex digit. -/
lemma uint8ArrayToHexChars_mem :
    ∀ (bs : List Nat), ∀ c ∈ uint8ArrayToHexChars bs, c ∈ hexDigitChars
  | [] => by
    intro c hc
    exact absurd hc (List.not_mem_nil c)
  | b :: bs => by
    intro c hc
    rw [uint8ArrayToHexChars] at hc
    rcases List.mem_cons.1 hc with rfl | hc'
    · exact hexDigit_mem _
    · rcases List.mem_cons.1 hc' with rfl | hc''
      · exact hexDigit_mem _
      · exact uint8ArrayToHexChars_mem bs c hc''

/-- C9: a generated secret is the fixed prefix `"auth-"` followed by the
64-character lowercase hexadecimal rendering of the 32 random bytes; in
every reachable state the stored secrets are pairwise distinct (the unique
index on `token`), and the safe views (`getToken`, `getOptionalToken`,
`listTokens`) are invariant under erasing the stored secrets, so a secret
is only ever returned at creation time. -/
theorem secret_format_uniqueness_and_hiding (bytes : List Nat) (db : DB)
    (hlen : bytes.length = 32) (_hbytes : ∀ b ∈ bytes, b < 256)
    (hdb : Reachable db) :
    (mkSecret bytes = "auth-" ++ uint8ArrayToHex bytes ∧
      (uint8ArrayToHex bytes).length = 64 ∧
      ∀ c ∈ (uint8ArrayToHex bytes).data, c ∈ hexDigitChars) ∧
    (∀ r ∈ db.tokens, ∀ r' ∈ db.tokens, r.token = r'.token → r = r') ∧
    (∀ d (n : String), getToken (eraseSecrets d) n = getToken d n ∧
      getOptionalToken (eraseSecrets d) n = getOptionalToken d n) ∧
    (∀ d, listTokens (eraseSecrets d) = listTokens d) := by
  refine ⟨⟨rfl, ?_, ?_⟩, (reachable_schemaInv hdb).tokenUnique,
    fun d n => ⟨getToken_eraseSecrets d n, getOptionalToken_eraseSecrets d n⟩,
    listTokens_eraseSecrets⟩
  · show (uint8ArrayToHexChars bytes).length = 64
    rw [uint8ArrayToHexChars_length, hlen]
  · intro c hc
    exact uint8ArrayToHexChars_mem bytes c hc

/-- Witness for C9: the all-zero byte vector and the empty (fresh) store. -/
theorem secret_format_uniqueness_and_hiding_witness :
    (mkSecret (List.replicate 32 0) =
        "auth-" ++ uint8ArrayToHex (List.replicate 32 0) ∧
      (uint8ArrayToHex (List.replicate 32 0)).length = 64 ∧
      ∀ c ∈ (uint8ArrayToHex (List.replicate 32 0)).data, c ∈ hexDigitChars) ∧
    (∀ r ∈ emptyDB.tokens, ∀ r' ∈ emptyDB.tokens, r.token = r'.token → r = r') ∧
    (∀ d (n : String), getToken (eraseSecrets d) n = getToken d n ∧
      getOptionalToken (eraseSecrets d) n = getOptionalToken d n) ∧
    (∀ d, listTokens (eraseSecrets d) = listTokens d) :=
  secret_format_uniqueness_and_hiding (List.replicate 32 0) emptyDB (by decide)
    (by decide) Reachable.init
